import Mathlib

/-!
Verification of the `common` repository: a response-envelope decorator
(`standard_resp` / `resp_error` in `helper.py`), an ORM result serializer
(`Serializer.as_dict` in `helper.py`), and a write-once constant holder
(`MsgConst` in `message.py`).

Strings are modelled as `List Char`, Python `dict`s built by `dict(...)` over
an ordered generator as ordered association lists, numeric values (`Decimal`,
`float`, `int`) as exact rationals/integers, and exceptions as an explicit
kind tag carrying the message (`str(e)`) and the attached `data` payload.
-/

/-! ## Decimal digit rendering (used by `strftime` formats and JSON numbers) -/

/-- The character for a decimal digit `n < 10`. -/
def digitCh (n : Nat) : Char := Char.ofNat (48 + n)

/-- Fuel-driven most-significant-first decimal digit accumulator. -/
def natToDigitsGo : Nat → Nat → List Char → List Char
  | 0, _, acc => acc
  | fuel + 1, n, acc =>
    if n < 10 then digitCh n :: acc
    else natToDigitsGo fuel (n / 10) (digitCh (n % 10) :: acc)

/-- Decimal digits of `n`, most significant first (`str(n)` for a Nat). -/
def natToDigits (n : Nat) : List Char := natToDigitsGo (n + 1) n []

/-- Recursive reference form of `natToDigits`, convenient for proofs. -/
def natDigitsR (n : Nat) : List Char :=
  if n < 10 then [digitCh n] else natDigitsR (n / 10) ++ [digitCh (n % 10)]
termination_by n
decreasing_by omega

theorem natToDigitsGo_eq (fuel n : Nat) (acc : List Char) (h : n < fuel) :
    natToDigitsGo fuel n acc = natDigitsR n ++ acc := by
  induction fuel generalizing n acc with
  | zero => omega
  | succ f ih =>
    by_cases h10 : n < 10
    · simp [natToDigitsGo, natDigitsR, h10]
    · rw [natToDigitsGo, if_neg h10, ih (n / 10) _ (by omega)]
      conv_rhs => rw [natDigitsR]
      rw [if_neg h10]
      simp

theorem natToDigits_eq (n : Nat) : natToDigits n = natDigitsR n := by
  rw [natToDigits, natToDigitsGo_eq _ _ _ (by omega), List.append_nil]

theorem digitCh_isDigit {d : Nat} (h : d < 10) : (digitCh d).isDigit = true := by
  interval_cases d <;> decide

theorem natDigitsR_ne_nil (n : Nat) : natDigitsR n ≠ [] := by
  rw [natDigitsR]
  split <;> simp

theorem natDigitsR_digits (n : Nat) : ∀ c ∈ natDigitsR n, c.isDigit = true := by
  induction n using Nat.strong_induction_on with
  | _ n ih =>
    intro c hc
    rw [natDigitsR] at hc
    split at hc
    · rcases List.mem_singleton.mp hc with rfl
      exact digitCh_isDigit (by omega)
    · rcases List.mem_append.mp hc with h | h
      · exact ih (n / 10) (by omega) c h
      · rcases List.mem_singleton.mp h with rfl
        exact digitCh_isDigit (by omega)

/-- Numeric value of one digit character. -/
def digitVal (c : Char) : Nat := c.toNat - 48

/-- Value of a most-significant-first digit list. -/
def digitsToNat (ds : List Char) : Nat := ds.foldl (fun a c => 10 * a + digitVal c) 0

theorem digitVal_digitCh {d : Nat} (h : d < 10) : digitVal (digitCh d) = d := by
  interval_cases d <;> decide

theorem digitsToNat_aux (ds : List Char) (a : Nat) :
    ds.foldl (fun a c => 10 * a + digitVal c) a =
      a * 10 ^ ds.length + ds.foldl (fun a c => 10 * a + digitVal c) 0 := by
  induction ds generalizing a with
  | nil => simp
  | cons c cs ih =>
    simp only [List.foldl_cons, List.length_cons]
    rw [ih (10 * a + digitVal c), ih (10 * 0 + digitVal c)]
    ring

theorem digitsToNat_append (xs ys : List Char) :
    digitsToNat (xs ++ ys) = digitsToNat xs * 10 ^ ys.length + digitsToNat ys := by
  simp only [digitsToNat, List.foldl_append]
  rw [digitsToNat_aux ys (List.foldl _ 0 xs)]

theorem digitsToNat_natDigitsR (n : Nat) : digitsToNat (natDigitsR n) = n := by
  induction n using Nat.strong_induction_on with
  | _ n ih =>
    rw [natDigitsR]
    split
    · next h =>
      simp [digitsToNat, digitVal_digitCh h]
    · next h =>
      rw [digitsToNat_append, ih (n / 10) (by omega)]
      simp [digitsToNat, digitVal_digitCh (Nat.mod_lt n (by omega))]
      omega

/-- Left-pad a digit string with zeros to width `w` (as `strftime` does). -/
def padTo (w : Nat) (ds : List Char) : List Char :=
  List.replicate (w - ds.length) '0' ++ ds

def pad2 (n : Nat) : List Char := padTo 2 (natToDigits n)

def pad4 (n : Nat) : List Char := padTo 4 (natToDigits n)

/-! ## Temporal values and `strftime` rendering (`convert_datetime` formats) -/

/-- A `datetime.datetime` value (sub-second parts are not printed by the code). -/
structure DateTimeV where
  year : Nat
  month : Nat
  day : Nat
  hour : Nat
  minute : Nat
  second : Nat
deriving DecidableEq, Repr

/-- A `datetime.date` value. -/
structure DateV where
  year : Nat
  month : Nat
  day : Nat
deriving DecidableEq, Repr

/-- A `datetime.time` value. -/
structure TimeV where
  hour : Nat
  minute : Nat
  second : Nat
deriving DecidableEq, Repr

/-- `value.strftime("%Y-%m-%d %H:%M:%S")`. -/
def fmtDateTime (d : DateTimeV) : List Char :=
  pad4 d.year ++ '-' :: pad2 d.month ++ '-' :: pad2 d.day ++
    ' ' :: pad2 d.hour ++ ':' :: pad2 d.minute ++ ':' :: pad2 d.second

/-- `value.strftime("%Y-%m-%d")`. -/
def fmtDate (d : DateV) : List Char :=
  pad4 d.year ++ '-' :: pad2 d.month ++ '-' :: pad2 d.day

/-- `value.strftime("%H:%M:%S")`. -/
def fmtTime (t : TimeV) : List Char :=
  pad2 t.hour ++ ':' :: pad2 t.minute ++ ':' :: pad2 t.second

/-! ## Python runtime values appearing as column values -/

/-- A Python runtime value as it can appear in an ORM column or row field.
`Decimal` / `float` / `int` are modelled exactly (rationals / integers);
IEEE rounding of `float()` is not modelled — the claims only concern values
such as `12.5` that convert exactly. -/
inductive PyVal where
  | none
  | bool (b : Bool)
  | int (n : Int)
  | float (q : Rat)
  | decimal (q : Rat)
  | str (s : List Char)
  | datetime (d : DateTimeV)
  | date (d : DateV)
  | time (t : TimeV)
deriving DecidableEq, Repr

/-- `helper.py` `convert_datetime`: dispatches on the runtime type of the
value.  `isinstance(value, datetime)` is checked before `isinstance(value,
date)` (in Python `datetime` is a subclass of `date`, so the order matters
in the source; the constructor match reflects the resulting behaviour).
A non-temporal value falls off the `if/elif` chain and yields Python `None`. -/
def convert_datetime (v : PyVal) : PyVal :=
  match v with
  | .datetime d => .str (fmtDateTime d)
  | .date d => .str (fmtDate d)
  | .time t => .str (fmtTime t)
  | _ => .none

/-- `type(_r) in time_type` where
`time_type = [c_datetime, DateTime, date, Date, Time, time]`: an exact
runtime-type membership test.  Only the three `datetime`-module value types
can occur as runtime types of row values (the SQLAlchemy column-type classes
`DateTime`/`Date`/`Time` in the list are never value types). -/
def inTimeType (v : PyVal) : Bool :=
  match v with
  | .datetime _ => true
  | .date _ => true
  | .time _ => true
  | _ => false

/-! ## `message.py`: the write-once uppercase-keys constant holder -/

/-- Python `str.isupper()` on ASCII identifiers: at least one cased
character, and no cased character is lower-case. -/
def pyIsUpper (s : List Char) : Bool :=
  s.any (fun c => c.isLower || c.isUpper) && s.all (fun c => !c.isLower)

/-- The two error classes raised by `MsgConst.__setattr__`; each carries the
offending attribute name (the Python message interpolates it into a fixed
format string).  `ConstCaseError` subclasses `ConstError` in the source; the
two constructors keep them distinguishable. -/
inductive ConstErr where
  | constError (name : List Char)
  | constCaseError (name : List Char)
deriving DecidableEq, Repr

/-- The instance `__dict__` of a `MsgConst` object, in insertion order. -/
abbrev ConstState := List (List Char × PyVal)

/-- `MsgConst.__setattr__`: reject if the name is already bound, then reject
if the name is not all-uppercase, else bind it.  Returns the raised error (if
any) together with the resulting `__dict__`. -/
def msgconst_setattr (st : ConstState) (name : List Char) (value : PyVal) :
    Option ConstErr × ConstState :=
  if (st.lookup name).isSome then (some (ConstErr.constError name), st)
  else if !pyIsUpper name then (some (ConstErr.constCaseError name), st)
  else (Option.none, st ++ [(name, value)])

/-! ## JSON values and `json.dumps` -/

/-- A JSON value as produced by handler code and encoded by `json.dumps`.
Numbers are integers: the claims under verification exercise integer fields
(`code`, `status`) and strings; Python `float` `repr` output is
floating-point behaviour outside this model. -/
inductive Json where
  | null
  | bool (b : Bool)
  | num (i : Int)
  | str (s : List Char)
  | arr (xs : List Json)
  | obj (members : List (List Char × Json))

/-- Opening brace character. -/
def obraceCh : Char := Char.ofNat 123

/-- Closing brace character. -/
def cbraceCh : Char := Char.ofNat 125

/-- Backspace. -/
def bsCh : Char := Char.ofNat 8

/-- Horizontal tab. -/
def tabCh : Char := Char.ofNat 9

/-- Line feed. -/
def lfCh : Char := Char.ofNat 10

/-- Form feed. -/
def ffCh : Char := Char.ofNat 12

/-- Carriage return. -/
def crCh : Char := Char.ofNat 13

/-- Character of one hexadecimal digit (lower-case letters, as CPython emits). -/
def hexDigitCh (n : Nat) : Char :=
  if n < 10 then Char.ofNat (48 + n) else Char.ofNat (87 + n)

/-- Four-digit hexadecimal rendering used in `\uXXXX` escapes. -/
def hex4 (n : Nat) : List Char :=
  [hexDigitCh (n / 4096 % 16), hexDigitCh (n / 256 % 16),
   hexDigitCh (n / 16 % 16), hexDigitCh (n % 16)]

/-- How `json.dumps` renders one character inside a string literal.
With `ensure_ascii=False` only `"`, `\`, and control characters are escaped
(the common ones by their two-character shorthands, the rest as `\u00XX`);
every other character — in particular every non-ASCII character — is emitted
literally.  With `ensure_ascii=True` characters outside printable ASCII are
also escaped as `\uXXXX` (with surrogate pairs above the BMP). -/
def escapeChar (ensureAscii : Bool) (c : Char) : List Char :=
  if c = '"' then ['\\', '"']
  else if c = '\\' then ['\\', '\\']
  else if c = bsCh then ['\\', 'b']
  else if c = tabCh then ['\\', 't']
  else if c = lfCh then ['\\', 'n']
  else if c = ffCh then ['\\', 'f']
  else if c = crCh then ['\\', 'r']
  else if c.toNat < 32 then '\\' :: 'u' :: hex4 c.toNat
  else if ensureAscii && 126 < c.toNat then
    if c.toNat < 65536 then '\\' :: 'u' :: hex4 c.toNat
    else '\\' :: 'u' :: hex4 (55296 + (c.toNat - 65536) / 1024) ++
         '\\' :: 'u' :: hex4 (56320 + (c.toNat - 65536) % 1024)
  else [c]

/-- The body of a JSON string literal: each character escaped as needed. -/
def escapeStr (ensureAscii : Bool) : List Char → List Char
  | [] => []
  | c :: cs => escapeChar ensureAscii c ++ escapeStr ensureAscii cs

/-- `repr` of a Python integer. -/
def intToChars (i : Int) : List Char :=
  if i < 0 then '-' :: natToDigits i.natAbs else natToDigits i.natAbs

mutual

/-- `json.dumps(v, ensure_ascii=ea)` with CPython's default separators
`", "` and `": "`. -/
def dumpJson (ea : Bool) : Json → List Char
  | .null => "null".toList
  | .bool true => "true".toList
  | .bool false => "false".toList
  | .num i => intToChars i
  | .str s => '"' :: escapeStr ea s ++ ['"']
  | .arr [] => ['[', ']']
  | .arr (x :: xs) => '[' :: (dumpJson ea x ++ dumpArrTail ea xs ++ [']'])
  | .obj [] => [obraceCh, cbraceCh]
  | .obj (m :: ms) => obraceCh :: (dumpMember ea m ++ dumpObjTail ea ms ++ [cbraceCh])

/-- One `"key": value` member. -/
def dumpMember (ea : Bool) : List Char × Json → List Char
  | (k, v) => '"' :: escapeStr ea k ++ '"' :: ':' :: ' ' :: dumpJson ea v

/-- `", elem"` for each further array element. -/
def dumpArrTail (ea : Bool) : List Json → List Char
  | [] => []
  | x :: xs => ',' :: ' ' :: (dumpJson ea x ++ dumpArrTail ea xs)

/-- `", member"` for each further object member. -/
def dumpObjTail (ea : Bool) : List (List Char × Json) → List Char
  | [] => []
  | m :: ms => ',' :: ' ' :: (dumpMember ea m ++ dumpObjTail ea ms)

end

/-! ## A JSON decoder (`json.loads`) for the dialect `json.dumps` emits -/

/-- Consume a literal character sequence, returning the rest on success. -/
def litP : List Char → List Char → Option (List Char)
  | [], cs => some cs
  | l :: ls, c :: cs => if c = l then litP ls cs else Option.none
  | _ :: _, [] => Option.none

/-- Skip JSON whitespace. -/
def skipWs : List Char → List Char
  | [] => []
  | c :: cs =>
    if c = ' ' || c = tabCh || c = lfCh || c = crCh then skipWs cs else c :: cs

/-- Value of one hexadecimal digit character, if any (both letter cases). -/
def hexVal (c : Char) : Option Nat :=
  if c.isDigit then some (c.toNat - 48)
  else if 97 ≤ c.toNat && c.toNat ≤ 102 then some (c.toNat - 87)
  else if 65 ≤ c.toNat && c.toNat ≤ 70 then some (c.toNat - 55)
  else Option.none

/-- The character encoded by a single-character escape `\c`. -/
def unescCh (c : Char) : Option Char :=
  if c = '"' then some '"'
  else if c = '\\' then some '\\'
  else if c = '/' then some '/'
  else if c = 'b' then some bsCh
  else if c = 'f' then some ffCh
  else if c = 'n' then some lfCh
  else if c = 'r' then some crCh
  else if c = 't' then some tabCh
  else Option.none

/-- Parse the body of a string literal (the opening quote already consumed),
undoing the escapes of `escapeChar`. -/
def parseStrAux : List Char → Option (List Char × List Char)
  | [] => Option.none
  | c :: cs =>
    if c = '"' then some ([], cs)
    else if c = '\\' then
      match cs with
      | [] => Option.none
      | e :: cs' =>
        if e = 'u' then
          match cs' with
          | a :: b :: c2 :: d :: cs'' =>
            match hexVal a, hexVal b, hexVal c2, hexVal d with
            | some x, some y, some z, some w =>
              (parseStrAux cs'').map
                (fun p => (Char.ofNat (4096 * x + 256 * y + 16 * z + w) :: p.1, p.2))
            | _, _, _, _ => Option.none
          | _ => Option.none
        else
          match unescCh e with
          | some u => (parseStrAux cs').map (fun p => (u :: p.1, p.2))
          | Option.none => Option.none
    else (parseStrAux cs).map (fun p => (c :: p.1, p.2))
termination_by cs => cs.length
decreasing_by all_goals (simp_wf <;> omega)

/-- Parse a run of decimal digits. -/
def parseNatT (cs : List Char) : Option (Nat × List Char) :=
  let ds := cs.takeWhile Char.isDigit
  if ds = [] then Option.none
  else some (digitsToNat ds, cs.dropWhile Char.isDigit)

mutual

/-- Fuel-driven recursive-descent JSON value parser. -/
def parseJsonF : Nat → List Char → Option (Json × List Char)
  | 0, _ => Option.none
  | Nat.succ f, cs =>
    match cs with
    | [] => Option.none
    | c :: cs' =>
      if c = 'n' then
        match litP ['u', 'l', 'l'] cs' with
        | some r => some (Json.null, r)
        | Option.none => Option.none
      else if c = 't' then
        match litP ['r', 'u', 'e'] cs' with
        | some r => some (Json.bool true, r)
        | Option.none => Option.none
      else if c = 'f' then
        match litP ['a', 'l', 's', 'e'] cs' with
        | some r => some (Json.bool false, r)
        | Option.none => Option.none
      else if c = '"' then
        match parseStrAux cs' with
        | some (s, r) => some (Json.str s, r)
        | Option.none => Option.none
      else if c = '[' then
        if cs'.head? = some ']' then some (Json.arr [], cs'.tail)
        else
          match parseJsonF f cs' with
          | some (v, r) =>
            match parseArrTail f r with
            | some (vs, rr) => some (Json.arr (v :: vs), rr)
            | Option.none => Option.none
          | Option.none => Option.none
      else if c = obraceCh then
        if cs'.head? = some cbraceCh then some (Json.obj [], cs'.tail)
        else
          match parseMemberF f cs' with
          | some (m, r) =>
            match parseObjTail f r with
            | some (ms, rr) => some (Json.obj (m :: ms), rr)
            | Option.none => Option.none
          | Option.none => Option.none
      else if c = '-' then
        match parseNatT cs' with
        | some (n, r) => some (Json.num (-(Int.ofNat n)), r)
        | Option.none => Option.none
      else if c.isDigit then
        match parseNatT (c :: cs') with
        | some (n, r) => some (Json.num (Int.ofNat n), r)
        | Option.none => Option.none
      else Option.none

/-- Parse one `"key": value` object member. -/
def parseMemberF : Nat → List Char → Option ((List Char × Json) × List Char)
  | f, cs =>
    match cs with
    | c :: cs' =>
      if c = '"' then
        match parseStrAux cs' with
        | some (k, r) =>
          match r with
          | ':' :: r' =>
            match parseJsonF f (skipWs r') with
            | some (v, rr) => some ((k, v), rr)
            | Option.none => Option.none
          | _ => Option.none
        | Option.none => Option.none
      else Option.none
    | [] => Option.none

/-- Parse the rest of an array: `]` ends it, `,` continues. -/
def parseArrTail : Nat → List Char → Option (List Json × List Char)
  | 0, _ => Option.none
  | Nat.succ f, cs =>
    match cs with
    | ']' :: r => some ([], r)
    | ',' :: r =>
      match parseJsonF f (skipWs r) with
      | some (v, r') =>
        match parseArrTail f r' with
        | some (vs, rr) => some (v :: vs, rr)
        | Option.none => Option.none
      | Option.none => Option.none
    | _ => Option.none

/-- Parse the rest of an object: the closing brace ends it, `,` continues. -/
def parseObjTail : Nat → List Char → Option (List (List Char × Json) × List Char)
  | 0, _ => Option.none
  | Nat.succ f, cs =>
    match cs with
    | c :: r =>
      if c = cbraceCh then some ([], r)
      else if c = ',' then
        match parseMemberF f (skipWs r) with
        | some (m, r') =>
          match parseObjTail f r' with
          | some (ms, rr) => some (m :: ms, rr)
          | Option.none => Option.none
        | Option.none => Option.none
      else Option.none
    | [] => Option.none

end

/-- Decode a complete JSON document (`json.loads`): parse one value and
require the input to be fully consumed.  The fuel `2 * length + 1` dominates
the recursion depth of any value the printer can emit. -/
def loadsJson (cs : List Char) : Option Json :=
  match parseJsonF (2 * cs.length + 1) cs with
  | some (v, []) => some v
  | _ => Option.none

/-! ## `helper.py`: the `standard_resp` decorator -/

/-- The exception classes named by the `except` clauses of `standard_resp`,
plus a catch-all for anything else (`except Exception`).
Modelled from the spec: the class bodies live in `common/exceptions.py`,
which is imported with `from common.exceptions import *` but is not part of
the two source files; per the spec's §7 taxonomy the kinds are a flat closed
set of distinct classes, each carrying a human-readable message (`str(e)`)
and — for the kinds whose handler reads it — an attached `data` payload. -/
inductive ExcKind where
  | ReturnDataError
  | InputError
  | AuthFailureError
  | NoAccessError
  | NotExistError
  | NotFoundError
  | ConnectionError
  | TypeError
  | BadRequest
  | InternalError
  | NeedRecordError
  | K8sError
  | GitError
  | DevopsBusyError
  | Unclassified
deriving DecidableEq, Repr

/-- A raised exception: its kind, its message (`str(e)`), and its `data`
attribute (a JSON-encodable payload; `Json.null` models a `None` payload). -/
structure Exc where
  kind : ExcKind
  msg : List Char
  data : Json

/-- The error body `{'status': status, 'msg': msg, 'data': data}` built by
`resp_error`; `data` is `none` when the keyword argument is omitted
(Python `data=None`). -/
structure ErrBody where
  status : Nat
  msg : List Char
  data : Option Json

/-- What the decorated handler hands back to Flask: either a `Response`
object (body string, HTTP status, content type) or the `(dict, status)`
tuple produced by `resp_error`. -/
inductive WrapperResult where
  | response (body : List Char) (status : Nat) (contentType : List Char)
  | errorTuple (body : ErrBody) (status : Nat)

/-- `resp_error(status, msg, data)`: returns `({'status', 'msg', 'data'},
status)` (the `traceback.print_exc()` side effect is diagnostic logging
only and does not affect the returned value). -/
def resp_error (status : Nat) (msg : List Char) (data : Option Json) : WrapperResult :=
  .errorTuple ⟨status, msg, data⟩ status

/-- The key `"code"`. -/
def codeKey : List Char := ['c', 'o', 'd', 'e']

/-- The key `"result"`. -/
def resultKey : List Char := ['r', 'e', 's', 'u', 'l', 't']

/-- The success body `{"code": 200, "result": result}`. -/
def successBody (result : Json) : Json :=
  Json.obj [(codeKey, Json.num 200), (resultKey, result)]

/-- The `content_type='application/json'` header value. -/
def contentTypeJson : List Char :=
  ['a', 'p', 'p', 'l', 'i', 'c', 'a', 't', 'i', 'o', 'n', '/', 'j', 's', 'o', 'n']

/-- The `make_response` closure built by `standard_resp`, applied to the
outcome of calling the wrapped handler: an `Except.error` is a raised
exception, dispatched by the `except` clause chain in source order; an
`Except.ok` value is wrapped in a Flask `Response` with the dumped success
body, the default status 200, and content type `application/json`.
`json.dumps` is called with `ensure_ascii=False`. -/
def make_response (outcome : Except Exc Json) : WrapperResult :=
  match outcome with
  | .error e =>
    match e.kind with
    | .ReturnDataError => resp_error 400 e.msg (some e.data)
    | .InputError => resp_error 400 e.msg (some e.data)
    | .AuthFailureError => resp_error 401 e.msg (some e.data)
    | .NoAccessError => resp_error 403 e.msg (some e.data)
    | .NotExistError => resp_error 404 e.msg (some e.data)
    | .NotFoundError => resp_error 404 e.msg (some e.data)
    | .ConnectionError => resp_error 500 e.msg Option.none
    | .TypeError => resp_error 500 e.msg Option.none
    | .BadRequest => resp_error 500 e.msg Option.none
    | .InternalError => resp_error 500 e.msg (some e.data)
    | .NeedRecordError => resp_error 500 e.msg (some e.data)
    | .K8sError => resp_error 500 e.msg (some e.data)
    | .GitError => resp_error 500 e.msg (some e.data)
    | .DevopsBusyError => resp_error 500 e.msg (some e.data)
    | .Unclassified => resp_error 500 e.msg Option.none
  | .ok result =>
    .response (dumpJson false (successBody result)) 200 contentTypeJson

/-- Modelled from the spec: the failure-kind → HTTP status table of §4.1. -/
def specStatus : ExcKind → Nat
  | .ReturnDataError => 400
  | .InputError => 400
  | .AuthFailureError => 401
  | .NoAccessError => 403
  | .NotExistError => 404
  | .NotFoundError => 404
  | .ConnectionError => 500
  | .TypeError => 500
  | .BadRequest => 500
  | .InternalError => 500
  | .NeedRecordError => 500
  | .K8sError => 500
  | .GitError => 500
  | .DevopsBusyError => 500
  | .Unclassified => 500

/-- Modelled from the spec: whether the §4.1 table row carries the failure's
`data` payload in the body (`no` rows send no payload). -/
def specHasData : ExcKind → Bool
  | .ConnectionError => false
  | .TypeError => false
  | .BadRequest => false
  | .Unclassified => false
  | _ => true

/-! ## `helper.py`: `Serializer.as_dict` -/

/-- The declared SQLAlchemy type of a column (`col.type`).  The `isinstance`
tests below encode the SQLAlchemy class hierarchy: `Date` and `Time` are
siblings of `DateTime` (each a direct `TypeEngine` subclass, not a
`DateTime` subclass), so `isinstance(col.type, DateTime)` holds only for
`DateTime`-typed columns; `Float` is a subclass of `Numeric`. -/
inductive ColType where
  | DateTime
  | Date
  | Time
  | Numeric
  | Float
  | Integer
  | String
  | Other
deriving DecidableEq, Repr

/-- `isinstance(col.type, DateTime)`: true exactly for a `DateTime`-typed
column — a `Date`- or `Time`-typed column fails this test and falls to the
pass-through branch of `model_to_dict`. -/
def isinstDateTime : ColType → Bool
  | .DateTime => true
  | _ => false

/-- `isinstance(col.type, Numeric)`. -/
def isinstNumeric : ColType → Bool
  | .Numeric => true
  | .Float => true
  | _ => false

/-- Python `float(value)` on the values that can sit in a column.
`None` raises `TypeError`; strings are only convertible when they spell a
number — no claim exercises that path, so it is left failing here and noted
as such. -/
def pyFloat : PyVal → Option PyVal
  | .decimal q => some (.float q)
  | .float q => some (.float q)
  | .int n => some (.float (n : Rat))
  | .bool b => some (.float (if b then 1 else 0))
  | _ => Option.none

/-- One declared column of an entity's `__table__.columns`, paired with the
value `getattr(_model, col.name)` holds on the instance being serialized. -/
structure ModelCol where
  name : List Char
  ctype : ColType
  value : PyVal

/-- An ORM entity instance (`flask_sqlalchemy.Model`): its declared columns
in declaration order, each with the instance's value. -/
structure EntityModel where
  cols : List ModelCol

/-- A raw joined-query result row: `zip(r.keys(), r)` as an ordered list of
(column name, value) pairs. -/
structure RawRow where
  cols : List (List Char × PyVal)

/-- The value `model_to_dict` yields for one column: `convert_datetime` when
the declared type is a `DateTime` (hence also `Date`/`Time`), `float(...)`
when it is a `Numeric` (hence also `Float`), the raw value otherwise. -/
def colValue (c : ModelCol) : Option PyVal :=
  if isinstDateTime c.ctype then some (convert_datetime c.value)
  else if isinstNumeric c.ctype then pyFloat c.value
  else some c.value

/-- An ordered field mapping (a Python `dict` built from an ordered
generator of key-value pairs). -/
abbrev FieldMap := List (List Char × PyVal)

/-- Serialize every element of a list with `f`, propagating the first
failure (the Python `for` loop aborts on the first raised exception). -/
def mapSer (f : QElem → Option FieldMap) : List QElem → Option (List FieldMap)
  | [] => some []
  | x :: xs =>
    match f x, mapSer f xs with
    | some y, some ys => some (y :: ys)
    | _, _ => Option.none

/-- `dict((g[0], g[1]) for g in model_to_dict(model))`: every declared
column, in order; `none` when a column conversion raises. -/
def model_to_dict : List ModelCol → Option FieldMap
  | [] => some []
  | c :: cs =>
    match colValue c, model_to_dict cs with
    | some v, some rest => some ((c.name, v) :: rest)
    | _, _ => Option.none

/-- One row of `result_to_dict`:
`dict(zip(r.keys(), (convert_datetime(_r) if type(_r) in time_type else _r
for _r in r)))`. -/
def rowToDict (r : RawRow) : FieldMap :=
  r.cols.map (fun p => (p.1, if inTimeType p.2 then convert_datetime p.2 else p.2))

/-- One element of the list handed to `as_dict`. -/
inductive QElem where
  | model (m : EntityModel)
  | row (r : RawRow)

/-- Whether `isinstance(elem, Model)` holds. -/
def isModelElem : QElem → Bool
  | .model _ => true
  | .row _ => false

/-- Serializing an element down the entity path (`model_to_dict`): a raw row
has no `__table__` attribute, so the Python code raises `AttributeError`
there (`none`). -/
def entityElemToDict : QElem → Option FieldMap
  | .model m => model_to_dict m.cols
  | .row _ => Option.none

/-- Serializing an element down the raw-row path (`result_to_dict`): an
entity instance has no `keys()` method, so the Python code raises there. -/
def rowElemToDict : QElem → Option FieldMap
  | .row r => some (rowToDict r)
  | .model _ => Option.none

/-- The argument of `Serializer.as_dict`: a list, a single entity, a single
raw row, or a falsy value (`None`; a zero-length row is likewise falsy). -/
inductive QInput where
  | list (xs : List QElem)
  | single (e : QElem)
  | noneInput

/-- The return value of `Serializer.as_dict`. -/
inductive SerOut where
  | list (xs : List FieldMap)
  | dict (d : FieldMap)
  | none
deriving DecidableEq

/-- `Serializer.as_dict`: dispatches on the shape of the argument; a
non-empty list is serialized wholly down the entity path or wholly down the
raw-row path depending only on `isinstance(models[0], Model)`; a falsy
non-list argument yields `None`.  A `none` result models an uncaught
exception inside the serializer. -/
def as_dict : QInput → Option SerOut
  | .list [] => some (SerOut.list [])
  | .list (x :: xs) =>
    if isModelElem x then (mapSer entityElemToDict (x :: xs)).map SerOut.list
    else (mapSer rowElemToDict (x :: xs)).map SerOut.list
  | .single (.model m) => (model_to_dict m.cols).map SerOut.dict
  | .single (.row r) =>
    if r.cols.isEmpty then some SerOut.none else some (SerOut.dict (rowToDict r))
  | .noneInput => some SerOut.none

/-! ## Round-trip lemmas: decoding what `json.dumps` emitted -/

theorem litP_append (l r : List Char) : litP l (l ++ r) = some r := by
  induction l with
  | nil => rfl
  | cons c cs ih => simp [litP, ih]

theorem hexVal_hexDigitCh {x : Nat} (h : x < 16) : hexVal (hexDigitCh x) = some x := by
  interval_cases x <;> decide

theorem parseStrAux_escapeStr (s : List Char) (r : List Char) :
    parseStrAux (escapeStr false s ++ '"' :: r) = some (s, r) := by
  induction s with
  | nil =>
    rw [escapeStr, List.nil_append, parseStrAux.eq_def]
    simp
  | cons c cs ih =>
    show parseStrAux ((escapeChar false c ++ escapeStr false cs) ++ '"' :: r) = _
    rw [List.append_assoc]
    by_cases h1 : c = '"'
    · subst h1
      rw [show escapeChar false '"' = ['\\', '"'] from rfl]
      rw [List.cons_append, List.cons_append, parseStrAux.eq_def]
      simp [unescCh, ih]
    by_cases h2 : c = '\\'
    · subst h2
      rw [show escapeChar false '\\' = ['\\', '\\'] from rfl]
      rw [List.cons_append, List.cons_append, parseStrAux.eq_def]
      simp [unescCh, ih]
    by_cases h3 : c = bsCh
    · subst h3
      rw [show escapeChar false bsCh = ['\\', 'b'] from rfl]
      rw [List.cons_append, List.cons_append, parseStrAux.eq_def]
      simp [unescCh, bsCh, ih]
    by_cases h4 : c = tabCh
    · subst h4
      rw [show escapeChar false tabCh = ['\\', 't'] from rfl]
      rw [List.cons_append, List.cons_append, parseStrAux.eq_def]
      simp [unescCh, tabCh, ih]
    by_cases h5 : c = lfCh
    · subst h5
      rw [show escapeChar false lfCh = ['\\', 'n'] from rfl]
      rw [List.cons_append, List.cons_append, parseStrAux.eq_def]
      simp [unescCh, lfCh, ih]
    by_cases h6 : c = ffCh
    · subst h6
      rw [show escapeChar false ffCh = ['\\', 'f'] from rfl]
      rw [List.cons_append, List.cons_append, parseStrAux.eq_def]
      simp [unescCh, ffCh, ih]
    by_cases h7 : c = crCh
    · subst h7
      rw [show escapeChar false crCh = ['\\', 'r'] from rfl]
      rw [List.cons_append, List.cons_append, parseStrAux.eq_def]
      simp [unescCh, crCh, ih]
    by_cases h8 : c.toNat < 32
    · rw [escapeChar, if_neg h1, if_neg h2, if_neg h3, if_neg h4, if_neg h5, if_neg h6,
        if_neg h7, if_pos h8, hex4]
      have e1 : hexVal (hexDigitCh (c.toNat / 4096 % 16)) = some (c.toNat / 4096 % 16) :=
        hexVal_hexDigitCh (by omega)
      have e2 : hexVal (hexDigitCh (c.toNat / 256 % 16)) = some (c.toNat / 256 % 16) :=
        hexVal_hexDigitCh (by omega)
      have e3 : hexVal (hexDigitCh (c.toNat / 16 % 16)) = some (c.toNat / 16 % 16) :=
        hexVal_hexDigitCh (by omega)
      have e4 : hexVal (hexDigitCh (c.toNat % 16)) = some (c.toNat % 16) :=
        hexVal_hexDigitCh (by omega)
      have harith : 4096 * (c.toNat / 4096 % 16) + 256 * (c.toNat / 256 % 16) +
          16 * (c.toNat / 16 % 16) + c.toNat % 16 = c.toNat := by omega
      simp only [List.cons_append, List.nil_append]
      rw [parseStrAux.eq_def]
      simp [e1, e2, e3, e4, ih, harith, Char.ofNat_toNat]
    · rw [escapeChar, if_neg h1, if_neg h2, if_neg h3, if_neg h4, if_neg h5, if_neg h6,
        if_neg h7, if_neg h8]
      simp only [Bool.false_and, Bool.false_eq_true, if_false, List.cons_append,
        List.nil_append]
      rw [parseStrAux.eq_def]
      simp [h1, h2, ih]

theorem ne_of_digit {c d : Char} (hc : c.isDigit = true) (hd : d.isDigit = false) :
    c ≠ d := by
  intro h
  subst h
  rw [hc] at hd
  exact absurd hd (by decide)

/-- Whether what follows a complete JSON value can begin: end of input or a
closing/continuing delimiter.  Nothing in this set is a digit, so number
parsing never overruns into it. -/
def boundaryB : List Char → Bool
  | [] => true
  | c :: _ => c = ',' || c = ']' || c = cbraceCh

theorem takeWhile_append_all {p : Char → Bool} (xs r : List Char)
    (hxs : ∀ c ∈ xs, p c = true) (hr : ∀ c, r.head? = some c → p c = false) :
    (xs ++ r).takeWhile p = xs ∧ (xs ++ r).dropWhile p = r := by
  induction xs with
  | nil =>
    simp only [List.nil_append]
    cases r with
    | nil => simp
    | cons c cs =>
      have := hr c rfl
      constructor
      · rw [List.takeWhile_cons, this]
        simp
      · rw [List.dropWhile_cons, this]
        simp
  | cons x xs ih =>
    have hx := hxs x (by simp)
    obtain ⟨iht, ihd⟩ := ih (fun c hc => hxs c (by simp [hc]))
    constructor
    · rw [List.cons_append, List.takeWhile_cons, hx, iht]
      simp
    · rw [List.cons_append, List.dropWhile_cons, hx, ihd]
      simp

theorem boundary_head_not_digit {r : List Char} (hb : boundaryB r = true) :
    ∀ c, r.head? = some c → c.isDigit = false := by
  intro c hc
  cases r with
  | nil => simp at hc
  | cons d ds =>
    simp only [List.head?_cons, Option.some.injEq] at hc
    subst hc
    simp only [boundaryB, Bool.or_eq_true, decide_eq_true_eq] at hb
    rcases hb with (h | h) | h <;> subst h <;> decide

theorem parseNatT_natDigitsR (n : Nat) (r : List Char) (hb : boundaryB r = true) :
    parseNatT (natDigitsR n ++ r) = some (n, r) := by
  obtain ⟨ht, hd⟩ := takeWhile_append_all (natDigitsR n) r (natDigitsR_digits n)
    (boundary_head_not_digit hb)
  rw [parseNatT]
  simp only [ht, hd, if_neg (natDigitsR_ne_nil n), digitsToNat_natDigitsR]

/-- Whitespace test used by `skipWs`. -/
def isWsCh (c : Char) : Bool := c = ' ' || c = tabCh || c = lfCh || c = crCh

theorem skipWs_cons_ws (c : Char) (cs : List Char) (h : isWsCh c = true) :
    skipWs (c :: cs) = skipWs cs := by
  rw [skipWs]
  rw [isWsCh] at h
  simp only [h, if_true]

theorem skipWs_cons_not_ws (c : Char) (cs : List Char) (h : isWsCh c = false) :
    skipWs (c :: cs) = c :: cs := by
  rw [skipWs]
  rw [isWsCh] at h
  simp [h]

/-- A first character of a printed JSON value is acceptable: not a closing
bracket, not a closing brace, not whitespace. -/
def headOkCh (c : Char) : Bool := !(c = ']' || c = cbraceCh || isWsCh c)

theorem headOkCh_props {c : Char} (h : headOkCh c = true) :
    c ≠ ']' ∧ c ≠ cbraceCh ∧ isWsCh c = false := by
  rw [headOkCh] at h
  simp only [Bool.not_eq_eq_eq_not, Bool.not_true, Bool.or_eq_false_iff,
    decide_eq_false_iff_not] at h
  exact ⟨h.1.1, h.1.2, h.2⟩

/-- Shape of the first character emitted for any JSON value: it pins down
the dispatch branch of `parseJsonF` and is never a delimiter, brace close,
or whitespace. -/
theorem dump_head_props (v : Json) :
    ∃ c t, dumpJson false v = c :: t ∧ headOkCh c = true := by
  cases v with
  | null => exact ⟨'n', _, rfl, rfl⟩
  | bool b =>
    cases b with
    | true => exact ⟨'t', _, rfl, rfl⟩
    | false => exact ⟨'f', _, rfl, rfl⟩
  | num i =>
    by_cases hi : i < 0
    · refine ⟨'-', natToDigits i.natAbs, ?_, rfl⟩
      rw [dumpJson, intToChars, if_pos hi]
    · obtain ⟨c, t, hct⟩ := List.exists_cons_of_ne_nil (natDigitsR_ne_nil i.natAbs)
      have hcd : c.isDigit = true := natDigitsR_digits i.natAbs c (by rw [hct]; simp)
      refine ⟨c, t, ?_, ?_⟩
      · rw [dumpJson, intToChars, if_neg hi, natToDigits_eq, hct]
      · have w0 : c ≠ ']' := ne_of_digit hcd (by decide)
        have w1 : c ≠ cbraceCh := ne_of_digit hcd (by decide)
        have w2 : c ≠ ' ' := ne_of_digit hcd (by decide)
        have w3 : c ≠ tabCh := ne_of_digit hcd (by decide)
        have w4 : c ≠ lfCh := ne_of_digit hcd (by decide)
        have w5 : c ≠ crCh := ne_of_digit hcd (by decide)
        rw [headOkCh, isWsCh]
        simp [w0, w1, w2, w3, w4, w5]
  | str s => exact ⟨'"', _, rfl, rfl⟩
  | arr xs =>
    cases xs with
    | nil => exact ⟨'[', _, rfl, rfl⟩
    | cons x xs => exact ⟨'[', _, rfl, rfl⟩
  | obj ms =>
    cases ms with
    | nil => exact ⟨obraceCh, _, rfl, rfl⟩
    | cons m ms => exact ⟨obraceCh, _, rfl, rfl⟩

theorem skipWs_dump (v : Json) (r : List Char) :
    skipWs (dumpJson false v ++ r) = dumpJson false v ++ r := by
  obtain ⟨c, t, hct, hok⟩ := dump_head_props v
  rw [hct, List.cons_append, skipWs_cons_not_ws _ _ (headOkCh_props hok).2.2]

mutual

/-- Parser fuel needed for a value: one unit per nesting step. -/
def sizeJ : Json → Nat
  | .null => 1
  | .bool _ => 1
  | .num _ => 1
  | .str _ => 1
  | .arr [] => 1
  | .arr (x :: xs) => 1 + sizeJ x + sizeTailJ xs
  | .obj [] => 1
  | .obj (m :: ms) => 1 + sizeMemb m + sizeMTail ms

/-- Fuel needed for one object member. -/
def sizeMemb : List Char × Json → Nat
  | (_, v) => 1 + sizeJ v

/-- Fuel needed for an array tail. -/
def sizeTailJ : List Json → Nat
  | [] => 1
  | x :: xs => 1 + sizeJ x + sizeTailJ xs

/-- Fuel needed for an object tail. -/
def sizeMTail : List (List Char × Json) → Nat
  | [] => 1
  | m :: ms => 1 + sizeMemb m + sizeMTail ms

end

theorem sizeJ_pos (v : Json) : 1 ≤ sizeJ v := by
  cases v with
  | null => simp [sizeJ]
  | bool b => simp [sizeJ]
  | num i => simp [sizeJ]
  | str s => simp [sizeJ]
  | arr xs => cases xs <;> simp [sizeJ] <;> omega
  | obj ms => cases ms <;> simp [sizeJ] <;> omega

theorem sizeTailJ_pos (xs : List Json) : 1 ≤ sizeTailJ xs := by
  cases xs <;> simp [sizeTailJ] <;> omega

theorem sizeMTail_pos (ms : List (List Char × Json)) : 1 ≤ sizeMTail ms := by
  cases ms <;> simp [sizeMTail] <;> omega

theorem boundaryB_dumpArrTail (ys : List Json) (r : List Char) :
    boundaryB (dumpArrTail false ys ++ ']' :: r) = true := by
  cases ys with
  | nil => rw [dumpArrTail]; rfl
  | cons y ys => rw [dumpArrTail]; rfl

theorem boundaryB_dumpObjTail (ms : List (List Char × Json)) (r : List Char) :
    boundaryB (dumpObjTail false ms ++ cbraceCh :: r) = true := by
  cases ms with
  | nil => rw [dumpObjTail]; simp [boundaryB]
  | cons m ms => rw [dumpObjTail]; simp [boundaryB]

theorem dumpMember_head (m : List Char × Json) :
    ∃ t, dumpMember false m = '"' :: t := by
  obtain ⟨k, v⟩ := m
  refine ⟨escapeStr false k ++ '"' :: ':' :: ' ' :: dumpJson false v, ?_⟩
  rw [dumpMember]
  rfl

theorem skipWs_dumpMember (m : List Char × Json) (r : List Char) :
    skipWs (dumpMember false m ++ r) = dumpMember false m ++ r := by
  obtain ⟨t, ht⟩ := dumpMember_head m
  rw [ht, List.cons_append, skipWs_cons_not_ws _ _ (by decide)]

theorem parse_dump (f : Nat) :
    (∀ v r, sizeJ v ≤ f → boundaryB r = true →
      parseJsonF f (dumpJson false v ++ r) = some (v, r)) ∧
    (∀ (k : List Char) (v : Json) (r : List Char), sizeJ v ≤ f → boundaryB r = true →
      parseMemberF f (dumpMember false (k, v) ++ r) = some ((k, v), r)) ∧
    (∀ xs r, sizeTailJ xs ≤ f →
      parseArrTail f (dumpArrTail false xs ++ ']' :: r) = some (xs, r)) ∧
    (∀ ms r, sizeMTail ms ≤ f →
      parseObjTail f (dumpObjTail false ms ++ cbraceCh :: r) = some (ms, r)) := by
  induction f with
  | zero =>
    refine ⟨?_, ?_, ?_, ?_⟩
    · intro v r hs _
      exact absurd hs (by have := sizeJ_pos v; omega)
    · intro k v r hs _
      exact absurd hs (by have := sizeJ_pos v; omega)
    · intro xs r hs
      exact absurd hs (by have := sizeTailJ_pos xs; omega)
    · intro ms r hs
      exact absurd hs (by have := sizeMTail_pos ms; omega)
  | succ f ih =>
    obtain ⟨ihv, ihm, iha, iho⟩ := ih
    have hv : ∀ v r, sizeJ v ≤ f + 1 → boundaryB r = true →
        parseJsonF (f + 1) (dumpJson false v ++ r) = some (v, r) := by
      intro v r hs hb
      cases v with
      | null =>
        have hd : dumpJson false Json.null = 'n' :: ['u', 'l', 'l'] := rfl
        rw [hd, List.cons_append, parseJsonF.eq_def]
        simp [litP]
      | bool b =>
        cases b with
        | true =>
          have hd : dumpJson false (Json.bool true) = 't' :: ['r', 'u', 'e'] := rfl
          rw [hd, List.cons_append, parseJsonF.eq_def]
          simp [litP]
        | false =>
          have hd : dumpJson false (Json.bool false) = 'f' :: ['a', 'l', 's', 'e'] := rfl
          rw [hd, List.cons_append, parseJsonF.eq_def]
          simp [litP]
      | num i =>
        rcases lt_or_le i 0 with hi | hi
        · have hd : dumpJson false (Json.num i) = '-' :: natDigitsR i.natAbs := by
            simp only [dumpJson, intToChars, if_pos hi, natToDigits_eq]
          have hp := parseNatT_natDigitsR i.natAbs r hb
          have habs : -|i| = i := by rw [abs_of_neg hi]; ring
          have hob : '-' ≠ obraceCh := by decide
          rw [hd, List.cons_append, parseJsonF.eq_def]
          simp [hp, habs, hob]
        · obtain ⟨c, t, hct⟩ := List.exists_cons_of_ne_nil (natDigitsR_ne_nil i.natAbs)
          have hcd : c.isDigit = true := natDigitsR_digits i.natAbs c (by rw [hct]; simp)
          have hd : dumpJson false (Json.num i) = c :: t := by
            simp only [dumpJson, intToChars, if_neg (by omega : ¬i < 0), natToDigits_eq, hct]
          have hp : parseNatT (c :: (t ++ r)) = some (i.natAbs, r) := by
            rw [← List.cons_append, ← hct]
            exact parseNatT_natDigitsR _ _ hb
          have habs : |i| = i := abs_of_nonneg hi
          have n1 : c ≠ 'n' := ne_of_digit hcd (by decide)
          have n2 : c ≠ 't' := ne_of_digit hcd (by decide)
          have n3 : c ≠ 'f' := ne_of_digit hcd (by decide)
          have n4 : c ≠ '"' := ne_of_digit hcd (by decide)
          have n5 : c ≠ '[' := ne_of_digit hcd (by decide)
          have n6 : c ≠ obraceCh := ne_of_digit hcd (by decide)
          have n7 : c ≠ '-' := ne_of_digit hcd (by decide)
          rw [hd, List.cons_append, parseJsonF.eq_def]
          simp [n1, n2, n3, n4, n5, n6, n7, hcd, hp, hi, habs]
      | str s =>
        simp only [dumpJson, List.cons_append, List.append_assoc, List.singleton_append]
        rw [parseJsonF.eq_def]
        simp [parseStrAux_escapeStr s r]
      | arr xs =>
        cases xs with
        | nil =>
          simp only [dumpJson, List.cons_append, List.nil_append]
          rw [parseJsonF.eq_def]
          simp
        | cons x xs =>
          have hsx : sizeJ x ≤ f := by
            rw [sizeJ] at hs
            have := sizeTailJ_pos xs
            omega
          have hst : sizeTailJ xs ≤ f := by
            rw [sizeJ] at hs
            have := sizeJ_pos x
            omega
          obtain ⟨c, t, hct, hok⟩ := dump_head_props x
          have hcne : c ≠ ']' := (headOkCh_props hok).1
          have hin := ihv x (dumpArrTail false xs ++ ']' :: r) hsx (boundaryB_dumpArrTail xs r)
          have hat := iha xs r hst
          rw [hct] at hin
          simp only [List.cons_append, List.append_assoc] at hin ⊢
          simp only [dumpJson, hct, List.cons_append, List.append_assoc,
            List.singleton_append]
          rw [parseJsonF.eq_def]
          simp [hcne, hin, hat]
      | obj ms =>
        cases ms with
        | nil =>
          simp only [dumpJson, List.cons_append, List.nil_append]
          rw [parseJsonF.eq_def]
          simp [obraceCh, cbraceCh]
        | cons m ms =>
          obtain ⟨k, mv⟩ := m
          have hsv : sizeJ mv ≤ f := by
            rw [sizeJ, sizeMemb] at hs
            have := sizeMTail_pos ms
            omega
          have hsms : sizeMTail ms ≤ f := by
            rw [sizeJ, sizeMemb] at hs
            have := sizeJ_pos mv
            omega
          obtain ⟨t, ht⟩ := dumpMember_head (k, mv)
          have hin := ihm k mv (dumpObjTail false ms ++ cbraceCh :: r) hsv
            (boundaryB_dumpObjTail ms r)
          have hot := iho ms r hsms
          rw [ht] at hin
          simp only [List.cons_append, List.append_assoc] at hin ⊢
          simp only [dumpJson, ht, List.cons_append, List.append_assoc,
            List.singleton_append]
          rw [parseJsonF.eq_def]
          simp only [obraceCh, cbraceCh] at hin hot ⊢
          simp [hin, hot]
    have hm : ∀ (k : List Char) (v : Json) (r : List Char), sizeJ v ≤ f + 1 →
        boundaryB r = true →
        parseMemberF (f + 1) (dumpMember false (k, v) ++ r) = some ((k, v), r) := by
      intro k v r hs hb
      have hskip : skipWs (' ' :: (dumpJson false v ++ r)) = dumpJson false v ++ r := by
        rw [skipWs_cons_ws _ _ (by decide), skipWs_dump]
      have hval := hv v r hs hb
      rw [dumpMember]
      simp only [List.cons_append, List.append_assoc]
      rw [parseMemberF.eq_def]
      simp [parseStrAux_escapeStr, hskip, hval]
    have ha : ∀ xs r, sizeTailJ xs ≤ f + 1 →
        parseArrTail (f + 1) (dumpArrTail false xs ++ ']' :: r) = some (xs, r) := by
      intro xs r hs
      cases xs with
      | nil =>
        rw [dumpArrTail, List.nil_append, parseArrTail.eq_def]
        simp
      | cons y ys =>
        have hsy : sizeJ y ≤ f := by
          rw [sizeTailJ] at hs
          have := sizeTailJ_pos ys
          omega
        have hsys : sizeTailJ ys ≤ f := by
          rw [sizeTailJ] at hs
          have := sizeJ_pos y
          omega
        have hskip : skipWs (' ' :: (dumpJson false y ++ (dumpArrTail false ys ++ ']' :: r))) =
            dumpJson false y ++ (dumpArrTail false ys ++ ']' :: r) := by
          rw [skipWs_cons_ws _ _ (by decide), skipWs_dump]
        have hin := ihv y (dumpArrTail false ys ++ ']' :: r) hsy (boundaryB_dumpArrTail ys r)
        have hat := iha ys r hsys
        rw [dumpArrTail]
        simp only [List.cons_append, List.append_assoc] at hin ⊢
        rw [parseArrTail.eq_def]
        simp [hskip, hin, hat]
    have ho : ∀ ms r, sizeMTail ms ≤ f + 1 →
        parseObjTail (f + 1) (dumpObjTail false ms ++ cbraceCh :: r) = some (ms, r) := by
      intro ms r hs
      cases ms with
      | nil =>
        rw [dumpObjTail, List.nil_append, parseObjTail.eq_def]
        simp
      | cons m ms =>
        obtain ⟨k, mv⟩ := m
        have hsv : sizeJ mv ≤ f := by
          rw [sizeMTail, sizeMemb] at hs
          have := sizeMTail_pos ms
          omega
        have hsms : sizeMTail ms ≤ f := by
          rw [sizeMTail, sizeMemb] at hs
          have := sizeJ_pos mv
          omega
        have hskip := skipWs_dumpMember (k, mv) (dumpObjTail false ms ++ cbraceCh :: r)
        have hin := ihm k mv (dumpObjTail false ms ++ cbraceCh :: r) hsv
          (boundaryB_dumpObjTail ms r)
        have hot := iho ms r hsms
        rw [dumpObjTail]
        simp only [List.cons_append, List.append_assoc] at hskip hin ⊢
        rw [parseObjTail.eq_def]
        simp only [obraceCh, cbraceCh] at hskip hin hot ⊢
        simp [skipWs_cons_ws _ _ (by decide : isWsCh ' ' = true), hskip, hin, hot]
    exact ⟨hv, hm, ha, ho⟩

theorem size_le_dump (n : Nat) :
    (∀ v, sizeJ v ≤ n → sizeJ v ≤ 2 * (dumpJson false v).length) ∧
    (∀ xs, sizeTailJ xs ≤ n → sizeTailJ xs ≤ 2 * (dumpArrTail false xs).length + 2) ∧
    (∀ ms, sizeMTail ms ≤ n → sizeMTail ms ≤ 2 * (dumpObjTail false ms).length + 2) := by
  induction n with
  | zero =>
    refine ⟨?_, ?_, ?_⟩
    · intro v hs
      exact absurd hs (by have := sizeJ_pos v; omega)
    · intro xs hs
      exact absurd hs (by have := sizeTailJ_pos xs; omega)
    · intro ms hs
      exact absurd hs (by have := sizeMTail_pos ms; omega)
  | succ n ih =>
    obtain ⟨ihv, iht, ihm⟩ := ih
    refine ⟨?_, ?_, ?_⟩
    · intro v hs
      cases v with
      | null => decide
      | bool b => cases b <;> decide
      | num i =>
        have hlen : 1 ≤ (intToChars i).length := by
          rw [intToChars]
          split
          · simp
          · rw [natToDigits_eq]
            exact List.length_pos.mpr (natDigitsR_ne_nil _)
        simp only [sizeJ, dumpJson]
        omega
      | str s =>
        simp only [sizeJ, dumpJson, List.length_cons, List.length_append]
        omega
      | arr xs =>
        cases xs with
        | nil => simp [sizeJ, dumpJson]
        | cons x xs =>
          have h1 : sizeJ x ≤ n := by
            rw [sizeJ] at hs
            have := sizeTailJ_pos xs
            omega
          have h2 : sizeTailJ xs ≤ n := by
            rw [sizeJ] at hs
            have := sizeJ_pos x
            omega
          have e1 := ihv x h1
          have e2 := iht xs h2
          simp only [sizeJ, dumpJson, List.length_cons, List.length_append]
          omega
      | obj ms =>
        cases ms with
        | nil => simp [sizeJ, dumpJson]
        | cons m ms =>
          obtain ⟨k, mv⟩ := m
          have h1 : sizeJ mv ≤ n := by
            rw [sizeJ, sizeMemb] at hs
            have := sizeMTail_pos ms
            omega
          have h2 : sizeMTail ms ≤ n := by
            rw [sizeJ, sizeMemb] at hs
            have := sizeJ_pos mv
            omega
          have e1 := ihv mv h1
          have e2 := ihm ms h2
          simp only [sizeJ, sizeMemb, dumpJson, dumpMember, List.length_cons,
            List.length_append]
          omega
    · intro xs hs
      cases xs with
      | nil => simp [sizeTailJ, dumpArrTail]
      | cons y ys =>
        have h1 : sizeJ y ≤ n := by
          rw [sizeTailJ] at hs
          have := sizeTailJ_pos ys
          omega
        have h2 : sizeTailJ ys ≤ n := by
          rw [sizeTailJ] at hs
          have := sizeJ_pos y
          omega
        have e1 := ihv y h1
        have e2 := iht ys h2
        simp only [sizeTailJ, dumpArrTail, List.length_cons, List.length_append]
        omega
    · intro ms hs
      cases ms with
      | nil => simp [sizeMTail, dumpObjTail]
      | cons m ms =>
        obtain ⟨k, mv⟩ := m
        have h1 : sizeJ mv ≤ n := by
          rw [sizeMTail, sizeMemb] at hs
          have := sizeMTail_pos ms
          omega
        have h2 : sizeMTail ms ≤ n := by
          rw [sizeMTail, sizeMemb] at hs
          have := sizeJ_pos mv
          omega
        have e1 := ihv mv h1
        have e2 := ihm ms h2
        simp only [sizeMTail, sizeMemb, dumpObjTail, dumpMember, List.length_cons,
          List.length_append]
        omega

/-- Decoding inverts encoding: parsing what `json.dumps(·, ensure_ascii=False)`
printed recovers the original value exactly. -/
theorem loadsJson_dumpJson (v : Json) : loadsJson (dumpJson false v) = some v := by
  have hsize : sizeJ v ≤ 2 * (dumpJson false v).length + 1 :=
    le_trans ((size_le_dump (sizeJ v)).1 v le_rfl) (by omega)
  have h := (parse_dump (2 * (dumpJson false v).length + 1)).1 v [] hsize rfl
  rw [List.append_nil] at h
  rw [loadsJson, h]

/-- With `ensure_ascii=False`, every non-ASCII character is emitted
literally by the string escaper. -/
theorem escapeChar_nonAscii (c : Char) (h : 128 ≤ c.toNat) :
    escapeChar false c = [c] := by
  have h1 : c ≠ '"' := by
    intro he
    subst he
    exact absurd h (by decide)
  have h2 : c ≠ '\\' := by
    intro he
    subst he
    exact absurd h (by decide)
  have h3 : c ≠ bsCh := by
    intro he
    subst he
    exact absurd h (by decide)
  have h4 : c ≠ tabCh := by
    intro he
    subst he
    exact absurd h (by decide)
  have h5 : c ≠ lfCh := by
    intro he
    subst he
    exact absurd h (by decide)
  have h6 : c ≠ ffCh := by
    intro he
    subst he
    exact absurd h (by decide)
  have h7 : c ≠ crCh := by
    intro he
    subst he
    exact absurd h (by decide)
  rw [escapeChar, if_neg h1, if_neg h2, if_neg h3, if_neg h4, if_neg h5, if_neg h6,
    if_neg h7, if_neg (by omega : ¬c.toNat < 32)]
  simp

/-- Every temporally-typed column of a successfully serialized entity
contributes its `convert_datetime`-normalized value to the output mapping. -/
theorem model_to_dict_mem_temporal (cols : List ModelCol) (out : FieldMap)
    (hmd : model_to_dict cols = some out) (c : ModelCol) (hc : c ∈ cols)
    (hdt : isinstDateTime c.ctype = true) :
    (c.name, convert_datetime c.value) ∈ out := by
  induction cols generalizing out with
  | nil => simp at hc
  | cons c0 cs ih =>
    rw [model_to_dict] at hmd
    rcases h0 : colValue c0 with _ | v0 <;> rw [h0] at hmd
    · exact absurd hmd (by simp)
    rcases h1 : model_to_dict cs with _ | rest <;> rw [h1] at hmd
    · exact absurd hmd (by simp)
    simp only [Option.some.injEq] at hmd
    subst hmd
    rcases List.mem_cons.mp hc with rfl | hmem
    · have hv0 : v0 = convert_datetime c.value := by
        rw [colValue, if_pos hdt] at h0
        exact (Option.some.injEq _ _ ▸ h0).symm
      rw [hv0]
      exact List.mem_cons_self _ _
    · exact List.mem_cons_of_mem _ (ih rest h1 hmem)

/-- Raw rows all serialize successfully down the raw-row path. -/
theorem mapSer_rowElem (rs : List RawRow) :
    mapSer rowElemToDict (rs.map QElem.row) = some (rs.map rowToDict) := by
  induction rs with
  | nil => rfl
  | cons r rs ih => simp [mapSer, rowElemToDict, ih]

/-- `isinstance(col.type, Numeric)` never overlaps the `DateTime` branch. -/
theorem isinstNumeric_not_DateTime {ct : ColType} (h : isinstNumeric ct = true) :
    isinstDateTime ct = false := by
  cases ct <;> first | rfl | exact absurd h (by decide)

/-! ## The claims -/

/-- C1: for every failure kind raised by the wrapped handler and listed in
the classification table, the wrapper returns exactly the table's HTTP
status `S` and the body `{status: S, msg: str(e), data: e.data or None per
the table}` (400 for input/validation, 401 for authentication, 403 for
access-denied, 404 for the two not-found kinds, 500 without payload for
network/type/malformed-request, 500 with payload for internal,
record-missing and integration kinds). -/
theorem c1_error_classification_table (e : Exc) :
    make_response (Except.error e) =
      WrapperResult.errorTuple
        ⟨specStatus e.kind, e.msg, if specHasData e.kind then some e.data else Option.none⟩
        (specStatus e.kind) := by
  obtain ⟨k, m, d⟩ := e
  cases k <;> rfl

/-- C2: a handler returning `v` without failing yields HTTP status 200 and
the body `{"code": 200, "result": v}` serialized with `ensure_ascii=False`
(non-ASCII characters kept literally) and content type `application/json`. -/
theorem c2_success_envelope (v : Json) :
    make_response (Except.ok v) =
      WrapperResult.response (dumpJson false (successBody v)) 200 contentTypeJson ∧
    ∀ c : Char, 128 ≤ c.toNat → escapeChar false c = [c] :=
  ⟨rfl, fun c hc => escapeChar_nonAscii c hc⟩

theorem c2_success_envelope_witness :
    make_response (Except.ok (Json.str [Char.ofNat 233])) =
      WrapperResult.response (dumpJson false (successBody (Json.str [Char.ofNat 233]))) 200
        contentTypeJson ∧
    escapeChar false (Char.ofNat 233) = [Char.ofNat 233] :=
  ⟨(c2_success_envelope (Json.str [Char.ofNat 233])).1,
   (c2_success_envelope (Json.str [Char.ofNat 233])).2 (Char.ofNat 233) (by decide)⟩

/-- C3: every failure raised inside the wrapped callable is caught — the
wrapper always produces an error tuple carrying the failure's message —
and an unclassified failure is answered with status 500, the message, and
no structured payload. -/
theorem c3_catch_all (e : Exc) (msg : List Char) (data : Json) :
    (∃ b s, make_response (Except.error e) = WrapperResult.errorTuple b s ∧ b.msg = e.msg) ∧
    make_response (Except.error ⟨ExcKind.Unclassified, msg, data⟩) =
      WrapperResult.errorTuple ⟨500, msg, Option.none⟩ 500 := by
  refine ⟨?_, rfl⟩
  obtain ⟨k, m, d⟩ := e
  cases k <;> exact ⟨_, _, rfl, rfl⟩

/-- C4: `MsgConst.__setattr__` rejects a write to an already-bound key with
a reassignment error, and a first write to a non-all-uppercase key with a
case-violation error; in both cases the registry dictionary is returned
unchanged (nothing is stored). -/
theorem c4_msgconst_guards (st : ConstState) (name : List Char) (v : PyVal) :
    ((st.lookup name).isSome = true →
      msgconst_setattr st name v = (some (ConstErr.constError name), st)) ∧
    ((st.lookup name).isSome = false → pyIsUpper name = false →
      msgconst_setattr st name v = (some (ConstErr.constCaseError name), st)) := by
  constructor
  · intro h
    rw [msgconst_setattr, if_pos h]
  · intro h1 h2
    rw [msgconst_setattr, if_neg (by simp [h1]), if_pos (by simp [h2])]

theorem c4_msgconst_guards_witness :
    msgconst_setattr [("APPLICATION_404".toList, PyVal.str "x".toList)]
        "APPLICATION_404".toList (PyVal.str [])
      = (some (ConstErr.constError "APPLICATION_404".toList),
         [("APPLICATION_404".toList, PyVal.str "x".toList)]) ∧
    msgconst_setattr [] "msg_lower".toList (PyVal.str [])
      = (some (ConstErr.constCaseError "msg_lower".toList), []) :=
  ⟨(c4_msgconst_guards [("APPLICATION_404".toList, PyVal.str "x".toList)]
      "APPLICATION_404".toList (PyVal.str [])).1 (by decide),
   (c4_msgconst_guards [] "msg_lower".toList (PyVal.str [])).2 (by decide) (by decide)⟩

/-- C5 counterexample: a column declared `Date` holding the date
`2023-05-01` (and a column declared `Time` holding `10:15:30`) serializes
on the entity path to the raw `date`/`time` value, not to the
`"YYYY-MM-DD"` / `"HH:MM:SS"` string the claim requires — the
`isinstance(col.type, DateTime)` test is false for those column types. -/
theorem c5_counterexample :
    model_to_dict [⟨"born_on".toList, ColType.Date, PyVal.date ⟨2023, 5, 1⟩⟩] =
      some [("born_on".toList, PyVal.date ⟨2023, 5, 1⟩)] ∧
    PyVal.date ⟨2023, 5, 1⟩ ≠ PyVal.str (fmtDate ⟨2023, 5, 1⟩) ∧
    model_to_dict [⟨"alarm".toList, ColType.Time, PyVal.time ⟨10, 15, 30⟩⟩] =
      some [("alarm".toList, PyVal.time ⟨10, 15, 30⟩)] ∧
    PyVal.time ⟨10, 15, 30⟩ ≠ PyVal.str (fmtTime ⟨10, 15, 30⟩) :=
  ⟨by decide, by decide, by decide, by decide⟩

/-- C5 (amended): on the entity path, only a column declared `DateTime` is
routed through `convert_datetime` — its datetime value is rendered
`YYYY-MM-DD HH:MM:SS`, and in particular `2023-05-01T10:15:30` yields
`"2023-05-01 10:15:30"` — while a column declared `Date` or `Time` fails
the `isinstance(col.type, DateTime)` test and its value passes through
unconverted. -/
theorem c5_temporal_rendering (d : DateTimeV) (c : ModelCol)
    (cols : List ModelCol) (out : FieldMap) :
    convert_datetime (PyVal.datetime d) = PyVal.str (fmtDateTime d) ∧
    (c.ctype = ColType.DateTime → colValue c = some (convert_datetime c.value)) ∧
    (c.ctype = ColType.Date ∨ c.ctype = ColType.Time → colValue c = some c.value) ∧
    (model_to_dict cols = some out →
      ∀ c' ∈ cols, isinstDateTime c'.ctype = true →
        (c'.name, convert_datetime c'.value) ∈ out) ∧
    model_to_dict [⟨"created_at".toList, ColType.DateTime,
        PyVal.datetime ⟨2023, 5, 1, 10, 15, 30⟩⟩] =
      some [("created_at".toList, PyVal.str "2023-05-01 10:15:30".toList)] := by
  refine ⟨rfl, ?_, ?_, ?_, by decide⟩
  · intro h
    rw [colValue, if_pos (by rw [h]; rfl)]
  · intro h
    rcases h with h | h <;>
      rw [colValue, if_neg (by rw [h]; decide), if_neg (by rw [h]; decide)]
  · intro hmd c' hc' hdt
    exact model_to_dict_mem_temporal cols out hmd c' hc' hdt

theorem c5_temporal_rendering_witness :
    colValue ⟨"created_at".toList, ColType.DateTime,
        PyVal.datetime ⟨2023, 5, 1, 10, 15, 30⟩⟩ =
      some (convert_datetime (PyVal.datetime ⟨2023, 5, 1, 10, 15, 30⟩)) ∧
    colValue ⟨"born_on".toList, ColType.Date, PyVal.date ⟨2023, 5, 1⟩⟩ =
      some (PyVal.date ⟨2023, 5, 1⟩) ∧
    ("created_at".toList,
        convert_datetime (PyVal.datetime ⟨2023, 5, 1, 10, 15, 30⟩)) ∈
      [("created_at".toList, PyVal.str "2023-05-01 10:15:30".toList)] :=
  ⟨(c5_temporal_rendering ⟨2023, 5, 1, 10, 15, 30⟩
      ⟨"created_at".toList, ColType.DateTime, PyVal.datetime ⟨2023, 5, 1, 10, 15, 30⟩⟩
      [] []).2.1 rfl,
   (c5_temporal_rendering ⟨2023, 5, 1, 10, 15, 30⟩
      ⟨"born_on".toList, ColType.Date, PyVal.date ⟨2023, 5, 1⟩⟩ [] []).2.2.1 (Or.inl rfl),
   (c5_temporal_rendering ⟨2023, 5, 1, 10, 15, 30⟩
      ⟨"created_at".toList, ColType.DateTime, PyVal.datetime ⟨2023, 5, 1, 10, 15, 30⟩⟩
      [⟨"created_at".toList, ColType.DateTime, PyVal.datetime ⟨2023, 5, 1, 10, 15, 30⟩⟩]
      [("created_at".toList, PyVal.str "2023-05-01 10:15:30".toList)]).2.2.2.1
    (by decide) _ (List.mem_singleton.mpr rfl) rfl⟩

/-- C6: `as_dict` of an empty list is the empty list, of a falsy (`None`)
input is `None`, and of a single entity instance is one field mapping not
wrapped in a list. -/
theorem c6_shape_dispatch (m : EntityModel) (out : FieldMap) :
    as_dict (QInput.list []) = some (SerOut.list []) ∧
    as_dict QInput.noneInput = some SerOut.none ∧
    (model_to_dict m.cols = some out →
      as_dict (QInput.single (QElem.model m)) = some (SerOut.dict out)) := by
  refine ⟨rfl, rfl, fun h => ?_⟩
  simp [as_dict, h]

theorem c6_shape_dispatch_witness :
    as_dict (QInput.single (QElem.model ⟨[⟨"id".toList, ColType.Integer, PyVal.int 7⟩]⟩)) =
      some (SerOut.dict [("id".toList, PyVal.int 7)]) :=
  (c6_shape_dispatch ⟨[⟨"id".toList, ColType.Integer, PyVal.int 7⟩]⟩
    [("id".toList, PyVal.int 7)]).2.2 (by decide)

/-- C7: a non-empty list of raw joined-query rows serializes to one mapping
per row built from the row's named columns, normalizing exactly the values
whose runtime type is `datetime`, `date` or `time` and passing every other
value through unchanged; two rows with columns `(id, created_at)` yield a
two-element list with `created_at` rendered `YYYY-MM-DD HH:MM:SS` and `id`
untouched. -/
theorem c7_raw_row_serialization (r : RawRow) (rs : List RawRow) (v : PyVal) :
    as_dict (QInput.list ((r :: rs).map QElem.row)) =
      some (SerOut.list ((r :: rs).map rowToDict)) ∧
    (∀ rr : RawRow, rowToDict rr =
      rr.cols.map (fun p => (p.1, if inTimeType p.2 then convert_datetime p.2 else p.2))) ∧
    (inTimeType v = true ↔
      (∃ d, v = PyVal.datetime d) ∨ (∃ d, v = PyVal.date d) ∨ (∃ t, v = PyVal.time t)) ∧
    as_dict (QInput.list
        ([⟨[("id".toList, PyVal.int 1),
            ("created_at".toList, PyVal.datetime ⟨2023, 5, 1, 10, 15, 30⟩)]⟩,
          ⟨[("id".toList, PyVal.int 2),
            ("created_at".toList, PyVal.datetime ⟨2024, 1, 2, 3, 4, 5⟩)]⟩].map QElem.row)) =
      some (SerOut.list
        [[("id".toList, PyVal.int 1),
          ("created_at".toList, PyVal.str "2023-05-01 10:15:30".toList)],
         [("id".toList, PyVal.int 2),
          ("created_at".toList, PyVal.str "2024-01-02 03:04:05".toList)]]) := by
  refine ⟨?_, fun rr => rfl, ?_, by decide⟩
  · have h := mapSer_rowElem (r :: rs)
    simp only [List.map_cons] at h ⊢
    simp [as_dict, isModelElem, h]
  · cases v <;> simp [inTimeType]

/-- C8: a column declared with a `Numeric` (decimal/fixed-precision) type
has its value rendered through `float(...)`; in particular a numeric column
valued `12.5` yields the float `12.5`. -/
theorem c8_numeric_to_float (c : ModelCol) (q : Rat) :
    (isinstNumeric c.ctype = true → c.value = PyVal.decimal q →
      colValue c = some (PyVal.float q)) ∧
    colValue ⟨"price".toList, ColType.Numeric, PyVal.decimal (25 / 2 : Rat)⟩ =
      some (PyVal.float (25 / 2 : Rat)) := by
  constructor
  · intro hn hv
    rw [colValue, if_neg (by simp [isinstNumeric_not_DateTime hn]), if_pos hn, hv]
    rfl
  · rfl

theorem c8_numeric_to_float_witness :
    colValue ⟨"price".toList, ColType.Numeric, PyVal.decimal (25 / 2 : Rat)⟩ =
      some (PyVal.float (25 / 2 : Rat)) :=
  (c8_numeric_to_float ⟨"price".toList, ColType.Numeric, PyVal.decimal (25 / 2 : Rat)⟩
    (25 / 2 : Rat)).1 rfl rfl

/-- C9: encoding the wrapper's success body with `json.dumps(...,
ensure_ascii=False)` and decoding it again reproduces
`{"code": 200, "result": v}` exactly, and non-ASCII characters are kept
literally (never `\u`-escaped) by the encoder. -/
theorem c9_roundtrip (v : Json) :
    loadsJson (dumpJson false (successBody v)) = some (successBody v) ∧
    ∀ c : Char, 128 ≤ c.toNat → escapeChar false c = [c] :=
  ⟨loadsJson_dumpJson (successBody v), fun c hc => escapeChar_nonAscii c hc⟩

theorem c9_roundtrip_witness :
    loadsJson (dumpJson false (successBody (Json.str [Char.ofNat 20013]))) =
      some (successBody (Json.str [Char.ofNat 20013])) ∧
    escapeChar false (Char.ofNat 20013) = [Char.ofNat 20013] :=
  ⟨(c9_roundtrip (Json.str [Char.ofNat 20013])).1,
   (c9_roundtrip (Json.str [Char.ofNat 20013])).2 (Char.ofNat 20013) (by decide)⟩

/-- C10: for a non-empty list input, `as_dict` picks the serialization path
solely from `isinstance(models[0], Model)`: a `Model` head sends every
element down the entity path, any other head sends every element down the
raw-row path, regardless of the remaining elements — and each path fails on
an element of the other shape. -/
theorem c10_dispatch_by_head (x : QElem) (xs : List QElem) (r : RawRow) (m : EntityModel) :
    (isModelElem x = true →
      as_dict (QInput.list (x :: xs)) = (mapSer entityElemToDict (x :: xs)).map SerOut.list) ∧
    (isModelElem x = false →
      as_dict (QInput.list (x :: xs)) = (mapSer rowElemToDict (x :: xs)).map SerOut.list) ∧
    entityElemToDict (QElem.row r) = Option.none ∧
    rowElemToDict (QElem.model m) = Option.none := by
  refine ⟨fun h => ?_, fun h => ?_, rfl, rfl⟩
  · rw [as_dict, if_pos h]
  · rw [as_dict, if_neg (by simp [h])]

theorem c10_dispatch_by_head_witness :
    as_dict (QInput.list [QElem.model ⟨[]⟩, QElem.row ⟨[]⟩]) =
      (mapSer entityElemToDict [QElem.model ⟨[]⟩, QElem.row ⟨[]⟩]).map SerOut.list ∧
    as_dict (QInput.list [QElem.row ⟨[]⟩, QElem.model ⟨[]⟩]) =
      (mapSer rowElemToDict [QElem.row ⟨[]⟩, QElem.model ⟨[]⟩]).map SerOut.list :=
  ⟨(c10_dispatch_by_head (QElem.model ⟨[]⟩) [QElem.row ⟨[]⟩] ⟨[]⟩ ⟨[]⟩).1 rfl,
   (c10_dispatch_by_head (QElem.row ⟨[]⟩) [QElem.model ⟨[]⟩] ⟨[]⟩ ⟨[]⟩).2.1 rfl⟩
